import Mathlib

/-!
Verification of the position synchronization engine of the fund-manage
repository.

The client-side engine lives in the `PositionSyncService` class
(`positionSyncService.ts`); the server-side reconciler lives in
`backend/controllers/positionSyncController.js`.  Both are shallowly
embedded here:

* JavaScript values that flow through the sync engine (holdings, change
  payloads, server records) are modelled by the inductive type `JsValue`;
  objects are association lists of fields in insertion order, which is
  what `JSON.stringify`, spread syntax and `for..in` observe.
* A JavaScript `Map` is modelled by an association list with
  `Map.set`, `Map.get`, `Map.delete` semantics (insertion order
  preserved, setting an existing key replaces the value in place).
* `Date.now()` and `new Date()` are passed in explicitly as `now`
  arguments; network calls of the orchestrator are supplied by an
  explicit environment of per-attempt outcomes.
* JavaScript numbers occurring in the engine (timestamps, shares) are
  integers, modelled by `Int`; the `x | 0`-style 32-bit truncations of
  the checksum are made explicit with `% 2^32`.
* Record identifiers are strings throughout the application (the client
  generates `temp_…`/`fund_…`/`stock_…` string ids), so map keys derived
  from the `id` field are modelled as `Option String` (`none` standing
  for a missing id).
-/

set_option maxRecDepth 100000

namespace FundSync

/-- A JavaScript/JSON value.  Objects keep their fields in insertion
order, as JavaScript does. -/
inductive JsValue where
  | jnull : JsValue
  | jbool (b : Bool) : JsValue
  | num (n : Int) : JsValue
  | str (s : String) : JsValue
  | arr (elems : List JsValue) : JsValue
  | obj (fields : List (String × JsValue)) : JsValue

/-- The fields of a JavaScript object, in insertion order. -/
abbrev Payload := List (String × JsValue)

/-- JSON string escaping for the characters that can occur in the data
handled by the sync engine. -/
def quoteChar (c : Char) : String :=
  if c = '"' then "\\\"" else if c = '\\' then "\\\\" else if c = '\n' then "\\n"
  else if c = '\r' then "\\r" else if c = '\t' then "\\t" else String.singleton c

def quoteString (s : String) : String :=
  "\"" ++ String.join (s.data.map quoteChar) ++ "\""

mutual

/-- `JSON.stringify`. -/
def stringify : JsValue → String
  | .jnull => "null"
  | .jbool b => cond b "true" "false"
  | .num n => toString n
  | .str s => quoteString s
  | .arr elems => "[" ++ stringifyList elems ++ "]"
  | .obj fields => "\x7b" ++ stringifyFields fields ++ "\x7d"

def stringifyList : List JsValue → String
  | [] => ""
  | [v] => stringify v
  | v :: rest => stringify v ++ "," ++ stringifyList rest

def stringifyFields : List (String × JsValue) → String
  | [] => ""
  | [(k, v)] => quoteString k ++ ":" ++ stringify v
  | (k, v) :: rest => quoteString k ++ ":" ++ stringify v ++ "," ++ stringifyFields rest

end

/-- JavaScript truthiness of a value (`0`, `""`, `null` are falsy). -/
def truthy : JsValue → Bool
  | .jnull => false
  | .jbool b => b
  | .num n => n != 0
  | .str s => s != ""
  | .arr _ => true
  | .obj _ => true

/-- Property access `v[k]`; `none` is JavaScript `undefined`. -/
def objGet (v : JsValue) (k : String) : Option JsValue :=
  match v with
  | .obj fields => List.lookup k fields
  | _ => none

/-- JavaScript `String(x)` coercion for the values that occur as record
keys in this code base (strings and numbers; composite values are not
used as keys by the application). -/
def jsToString : Option JsValue → String
  | none => "undefined"
  | some .jnull => "null"
  | some (.jbool b) => cond b "true" "false"
  | some (.num n) => toString n
  | some (.str s) => s
  | some (.arr _) => "[object Array]"
  | some (.obj _) => "[object Object]"

/-- `String.startsWith`, modelled on the character lists so that it
reduces inside the kernel (the byte-level core implementation is
well-founded recursion, which does not). -/
def jsStartsWith (s pre : String) : Bool :=
  List.isPrefixOf pre.data s.data

/-- The map key derived from a record's `id` field.  Identifiers are
strings throughout the application; a record without a string `id`
yields `none`. -/
def idKey (h : JsValue) : Option String :=
  match objGet h "id" with
  | some (.str s) => some s
  | _ => none

/-- JavaScript `serverTime > localTime` where `serverTime` is a raw
property value: true only when the value is a number strictly greater
than the timestamp (a non-numeric value compares as `NaN`, i.e. false). -/
def jsGT (serverTime : JsValue) (localTime : Int) : Bool :=
  match serverTime with
  | .num m => localTime < m
  | _ => false

/-- JavaScript `timestamp > propertyValue` with the property value on
the right: true only when the value is a number strictly below the
timestamp. -/
def jsLT (propertyValue : JsValue) (timestamp : Int) : Bool :=
  match propertyValue with
  | .num m => m < timestamp
  | _ => false

/-! ### JavaScript `Map` as an insertion-ordered association list -/

/-- `Map.set`: replace the value in place if the key is present,
otherwise append the entry. -/
def mapSet {κ α : Type} [DecidableEq κ] : List (κ × α) → κ → α → List (κ × α)
  | [], k, v => [(k, v)]
  | (k', v') :: rest, k, v =>
    if k' = k then (k', v) :: rest else (k', v') :: mapSet rest k v

/-- `Map.get` (first entry with the key; `Map`s never hold duplicate
keys). -/
def mapLookup {κ α : Type} [DecidableEq κ] (m : List (κ × α)) (k : κ) : Option α :=
  match m with
  | [] => none
  | (k', v) :: rest => if k' = k then some v else mapLookup rest k

/-- `Map.delete`. -/
def mapDelete {κ α : Type} [DecidableEq κ] (m : List (κ × α)) (k : κ) : List (κ × α) :=
  m.filter (fun p => p.1 ≠ k)

/-- `new Map(entries)`: later entries with an equal key overwrite the
value at the first position of that key. -/
def mapOfList {κ α : Type} [DecidableEq κ] (entries : List (κ × α)) : List (κ × α) :=
  entries.foldl (fun m p => mapSet m p.1 p.2) []

/-- `Array.from(map.values())`. -/
def mapValues {κ α : Type} (m : List (κ × α)) : List α :=
  m.map Prod.snd

/-! ### Checksum (`PositionSyncService.calculateChecksum`) -/

/-- JavaScript `ToUint32` (the `>>> 0` conversion). -/
def toUint32 (x : Int) : Nat := (x % (4294967296 : Int)).toNat

/-- JavaScript `ToInt32` (the conversion applied by `<<`). -/
def toInt32 (x : Int) : Int :=
  let u : Nat := toUint32 x
  if u < 2147483648 then (u : Int) else (u : Int) - 4294967296

/-- One iteration of the hash loop: `hash = (hash << 5) + hash + char`.
`hash << 5` truncates to a signed 32-bit integer; the additions are
exact (JavaScript doubles are exact on these magnitudes). -/
def hashStep (h : Int) (c : Nat) : Int := toInt32 (h * 32) + h + (c : Int)

/-- `calculateChecksum`: djb2-style hash of `JSON.stringify(data)`,
rendered as the lowercase hexadecimal of the unsigned 32-bit value. -/
def calculateChecksum (data : JsValue) : String :=
  let s := stringify data
  let h := s.data.foldl (fun h c => hashStep h c.toNat) 5381
  String.mk (Nat.toDigits 16 (toUint32 h))

/-! ### Value equality irrespective of key insertion order

This is the notion the specification appeals to ("value-equal inputs
regardless of key insertion order"); it is *not* part of the source. -/

mutual

/-- Structural equality of JSON values that ignores the insertion order
of object keys (per the specification's wording). -/
def jsonValueEq : JsValue → JsValue → Bool
  | .jnull, .jnull => true
  | .jbool a, .jbool b => a == b
  | .num a, .num b => a == b
  | .str a, .str b => a == b
  | .arr xs, .arr ys => jsonListEq xs ys
  | .obj fs, .obj gs =>
    jsonFieldsLe fs gs && gs.all (fun kv => (List.lookup kv.1 fs).isSome)
  | _, _ => false

def jsonListEq : List JsValue → List JsValue → Bool
  | [], [] => true
  | x :: xs, y :: ys => jsonValueEq x y && jsonListEq xs ys
  | _, _ => false

def jsonFieldsLe : List (String × JsValue) → List (String × JsValue) → Bool
  | [], _ => true
  | (k, v) :: rest, gs =>
    (match List.lookup k gs with
     | some w => jsonValueEq v w
     | none => false) && jsonFieldsLe rest gs

end

/-! ### Client-side sync service (`PositionSyncService`) -/

/-- `SyncOperationType` from the client service. -/
inductive SyncOperationType where
  | CREATE : SyncOperationType
  | UPDATE : SyncOperationType
  | DELETE : SyncOperationType
  deriving DecidableEq, Repr

/-- `PositionChange`: a queued local mutation.  `data` holds the fields
of the partial payload object. -/
structure PositionChange where
  id : String
  operation : SyncOperationType
  timestamp : Int
  data : Payload
  checksum : String

/-- `SyncConflict`.  Fields the source leaves `undefined` on some code
paths are `Option`s.  `resolution` is the literal string tag used by the
source. -/
structure SyncConflict where
  id : String
  localData : Payload
  serverData : Option JsValue
  resolution : String
  conflictingFields : Option (List String)
  serverTimestamp : Option JsValue
  localTimestamp : Option Int
  operation : Option SyncOperationType
  message : Option String

namespace Client

/-- JavaScript object spread `\x7b...old, ...new\x7d`: old fields keep
their position (values overridden by the update where present), new
fields are appended in their own order. -/
def spreadMerge (old upd : Payload) : Payload :=
  old.map (fun kv =>
    match List.lookup kv.1 upd with
    | some v => (kv.1, v)
    | none => kv)
  ++ upd.filter (fun kv => (List.lookup kv.1 old).isNone)

/-- The change object built at the top of `recordChange`. -/
def newChange (operation : SyncOperationType) (data : Payload) (id : String)
    (now : Int) : PositionChange :=
  { id := id, operation := operation, timestamp := now, data := data,
    checksum := calculateChecksum (.obj data) }

/-- The coalesced entry written by `recordChange` when a pending change
with the same id exists and the new operation is not DELETE: payload
shallow-merged, timestamp refreshed, checksum recomputed over the merged
payload, id and operation kept from the existing entry. -/
def mergeChange (existing : PositionChange) (data : Payload) (now : Int) : PositionChange :=
  { existing with
    data := spreadMerge existing.data data,
    timestamp := now,
    checksum := calculateChecksum (.obj (spreadMerge existing.data data)) }

/-- `recordChange`: find the first pending change with the given id
(`findIndex`) and replace it — outright for DELETE, coalesced otherwise
— or append the new change when no entry with that id exists. -/
def recordChange (pending : List PositionChange) (operation : SyncOperationType)
    (data : Payload) (id : String) (now : Int) : List PositionChange :=
  match pending with
  | [] => [newChange operation data id now]
  | c :: rest =>
    if c.id = id then
      if operation = SyncOperationType.DELETE then
        newChange operation data id now :: rest
      else
        mergeChange c data now :: rest
    else
      c :: recordChange rest operation data id now

/-! #### Conflict detector (`PositionSyncService.detectConflicts`) -/

/-- The server snapshot the detector compares against. -/
structure ServerSnapshot where
  fundHoldings : List JsValue
  stockHoldings : List JsValue

/-- `serverItem.updatedAt || serverItem.addTime || 0` (JavaScript `||`
falls through on falsy values, `undefined` and `0` included). -/
def serverTimeOf (serverItem : JsValue) : JsValue :=
  let u := (objGet serverItem "updatedAt").getD .jnull
  if truthy u then u
  else
    let a := (objGet serverItem "addTime").getD .jnull
    if truthy a then a else .num 0

/-- `identifyConflictingFields`: the keys of the local payload that the
server record also carries but with a different `JSON.stringify` image. -/
def identifyConflictingFields (localData : Payload) (serverData : JsValue) : List String :=
  (localData.filter (fun kv =>
    match objGet serverData kv.1 with
    | some sv => stringify kv.2 != stringify sv
    | none => false)).map Prod.fst

/-- `serverFundMap.get(change.id) || serverStockMap.get(change.id)`:
the maps are keyed by each holding's `id` field. -/
def serverItemFor (sd : ServerSnapshot) (id : String) : Option JsValue :=
  let fund := mapLookup (mapOfList (sd.fundHoldings.map (fun h => (idKey h, h)))) (some id)
  let stock := mapLookup (mapOfList (sd.stockHoldings.map (fun h => (idKey h, h)))) (some id)
  fund.orElse (fun _ => stock)

/-- The conflict pushed for one pending change by the loop body of
`detectConflicts` (`none` when the loop pushes nothing for it). -/
def conflictOf (sd : ServerSnapshot) (change : PositionChange) : Option SyncConflict :=
  match serverItemFor sd change.id with
  | some serverItem =>
    if change.operation ≠ SyncOperationType.CREATE then
      let serverTime := serverTimeOf serverItem
      if jsGT serverTime change.timestamp then
        some { id := change.id, localData := change.data, serverData := some serverItem,
               resolution := "manual",
               conflictingFields := some (identifyConflictingFields change.data serverItem),
               serverTimestamp := some serverTime, localTimestamp := some change.timestamp,
               operation := some change.operation, message := none }
      else none
    else none
  | none =>
    if change.operation = SyncOperationType.UPDATE then
      some { id := change.id, localData := change.data, serverData := none,
             resolution := "manual", conflictingFields := some ["id"],
             serverTimestamp := none, localTimestamp := none, operation := none,
             message := some "本地尝试更新的项目在服务器上不存在" }
    else none

/-- `detectConflicts`: the loop pushes at most one conflict per pending
change, in order. -/
def detectConflicts (localChanges : List PositionChange) (sd : ServerSnapshot) :
    List SyncConflict :=
  localChanges.filterMap (conflictOf sd)

/-! #### Diff utility (`PositionSyncService.calculateDiff`) -/

/-- `String(item[keyField])`, the key both maps are built with. -/
def keyOf (keyField : String) (item : JsValue) : String :=
  jsToString (objGet item keyField)

structure PositionDiff where
  toCreate : List JsValue
  toUpdate : List JsValue
  toDelete : List String

/-- `calculateDiff`: one pass over the server map fills `toCreate`
(key absent locally) and `toUpdate` (present with differing checksum),
one pass over the local map fills `toDelete` (key absent server-side). -/
def calculateDiff (localData serverData : List JsValue) (keyField : String) : PositionDiff :=
  let localMap := mapOfList (localData.map (fun item => (keyOf keyField item, item)))
  let serverMap := mapOfList (serverData.map (fun item => (keyOf keyField item, item)))
  { toCreate := (serverMap.filter (fun p => (mapLookup localMap p.1).isNone)).map Prod.snd,
    toUpdate := serverMap.filterMap (fun p =>
      match mapLookup localMap p.1 with
      | some localItem =>
        if calculateChecksum localItem ≠ calculateChecksum p.2 then some p.2 else none
      | none => none),
    toDelete := (localMap.filter (fun p => (mapLookup serverMap p.1).isNone)).map Prod.fst }

end Client

/-! ### Server-side reconciler (`positionSyncController.js`) -/

namespace Server

/-- `OperationType` of the controller (same three string tags as the
client). -/
abbrev OperationType := SyncOperationType

/-- An incoming change as received by the controller (`data` may be
absent from the JSON body). -/
structure ServerChange where
  id : String
  operation : OperationType
  timestamp : Int
  data : Option JsValue

/-- The fields spread out of `change.data` (spreading `undefined` or a
non-object contributes no fields). -/
def dataFields : Option JsValue → Payload
  | some (.obj fields) => fields
  | _ => []

/-- The record built for CREATE (and for UPDATE on a missing id):
`\x7b...data, id, createdAt: timestamp, updatedAt: timestamp\x7d`. -/
def mkCreated (c : ServerChange) : JsValue :=
  .obj (mapSet (mapSet (mapSet (dataFields c.data) "id" (.str c.id))
    "createdAt" (.num c.timestamp)) "updatedAt" (.num c.timestamp))

/-- The record built for an effective UPDATE:
`\x7b...existing, ...data, id, updatedAt: timestamp\x7d`. -/
def mkUpdated (existing : JsValue) (c : ServerChange) : JsValue :=
  let existingFields := match existing with | .obj fields => fields | _ => []
  .obj (mapSet (mapSet (Client.spreadMerge existingFields (dataFields c.data))
    "id" (.str c.id)) "updatedAt" (.num c.timestamp))

/-- One iteration of the `applyChanges` loop on the holdings map
(keyed by each holding's `id`). -/
def applyOne (m : List (Option String × JsValue)) (c : ServerChange) :
    List (Option String × JsValue) :=
  let key : Option String := some c.id
  match c.operation with
  | .CREATE =>
    if (mapLookup m key).isSome then m else mapSet m key (mkCreated c)
  | .UPDATE =>
    match mapLookup m key with
    | some existing =>
      let u := (objGet existing "updatedAt").getD .jnull
      if !truthy u || jsLT u c.timestamp then
        mapSet m key (mkUpdated existing c)
      else m
    | none => mapSet m key (mkCreated c)
  | .DELETE => mapDelete m key

/-- `applyChanges(holdings, changes, type)`: builds a map keyed by id,
applies every change with idempotent CREATE and timestamp-guarded
UPDATE, and returns `Array.from(map.values())`. -/
def applyChanges (holdings : List JsValue) (changes : List ServerChange) : List JsValue :=
  let m := changes.foldl applyOne (mapOfList (holdings.map (fun h => (idKey h, h))))
  mapValues m

/-- A conflict object built by the controller's `detectConflicts`. -/
structure ServerConflict where
  id : String
  type : OperationType
  localData : Option JsValue
  serverData : JsValue
  localTimestamp : Int
  serverTimestamp : JsValue

/-- `serverItem.updatedAt || serverItem.createdAt || 0`. -/
def serverTimeOf (serverItem : JsValue) : JsValue :=
  let u := (objGet serverItem "updatedAt").getD .jnull
  if truthy u then u
  else
    let c := (objGet serverItem "createdAt").getD .jnull
    if truthy c then c else .num 0

/-- The conflict pushed for one change by the controller's
`detectConflicts` loop.  The `localHoldings` parameter of the source
function is unused by its body. -/
def conflictOf (serverMap : List (Option String × JsValue)) (change : ServerChange) :
    Option ServerConflict :=
  match mapLookup serverMap (some change.id) with
  | some serverItem =>
    if change.operation ≠ SyncOperationType.CREATE then
      let serverTime := serverTimeOf serverItem
      if jsGT serverTime change.timestamp then
        some { id := change.id, type := change.operation, localData := change.data,
               serverData := serverItem, localTimestamp := change.timestamp,
               serverTimestamp := serverTime }
      else none
    else none
  | none => none

/-- `detectConflicts(localHoldings, serverHoldings, changes)` of the
controller. -/
def detectConflicts (localHoldings serverHoldings : List JsValue)
    (changes : List ServerChange) : List ServerConflict :=
  let _ := localHoldings
  let serverMap := mapOfList (serverHoldings.map (fun h => (idKey h, h)))
  changes.filterMap (conflictOf serverMap)

/-! #### `syncUserData` -/

/-- The per-user authoritative document. -/
structure UserDoc where
  fundHoldings : List JsValue
  stockHoldings : List JsValue
  accountGroups : List JsValue
  settings : Payload
  lastUpdated : Int

/-- The document lazily created for a user with no stored data. -/
def emptyUserDoc (now : Int) : UserDoc :=
  { fundHoldings := [], stockHoldings := [], accountGroups := [],
    settings := [("colorScheme", .str "red-green"), ("refreshInterval", .num 60000),
                 ("lastSyncTime", .jnull)],
    lastUpdated := now }

/-- The body of a sync request (`req.body`, with the defaults the
controller destructures). -/
structure SyncRequest where
  changes : List ServerChange
  fundHoldings : List JsValue
  stockHoldings : List JsValue
  accountGroups : List JsValue
  settings : Payload
  deviceId : String
  timestamp : Int
  force : Bool

/-- `c.data && (c.data.fundCode || c.id.startsWith('fund_'))`. -/
def isFundChange (c : ServerChange) : Bool :=
  match c.data with
  | some d => truthy d && (truthy ((objGet d "fundCode").getD .jnull)
      || jsStartsWith c.id "fund_")
  | none => false

/-- `c.data && (c.data.stockCode || c.id.startsWith('stock_'))`. -/
def isStockChange (c : ServerChange) : Bool :=
  match c.data with
  | some d => truthy d && (truthy ((objGet d "stockCode").getD .jnull)
      || jsStartsWith c.id "stock_")
  | none => false

/-- `[...fundConflicts, ...stockConflicts]` as computed by
`syncUserData` against a loaded document. -/
def allConflictsOf (userData : UserDoc) (req : SyncRequest) : List ServerConflict :=
  let fundChanges := req.changes.filter isFundChange
  let stockChanges := req.changes.filter isStockChange
  detectConflicts req.fundHoldings userData.fundHoldings fundChanges
    ++ detectConflicts req.stockHoldings userData.stockHoldings stockChanges

/-- The `data` object of a successful response. -/
structure RespData where
  fundHoldings : List JsValue
  stockHoldings : List JsValue
  accountGroups : List JsValue
  settings : Payload
  lastUpdated : Int

/-- The JSON body sent by `res.json` (fields a code path leaves out are
`none`/`false`). -/
structure SyncResponse where
  success : Bool
  message : String
  data : Option RespData
  conflicts : List ServerConflict
  requiresResolution : Bool
  serverTimestamp : Option Int

/-- `syncUserData`: load (or lazily create) the user's document,
partition the changes, detect conflicts, short-circuit on conflict
unless forced, otherwise apply both change sets, merge groups and
settings, stamp the sync time and persist.  `now` stands for the
server clock (`Date.now()` / `new Date()`); the returned document is
the stored state after the request. -/
def syncUserData (now : Int) (stored : Option UserDoc) (req : SyncRequest) :
    UserDoc × SyncResponse :=
  let userData := stored.getD (emptyUserDoc now)
  let fundChanges := req.changes.filter isFundChange
  let stockChanges := req.changes.filter isStockChange
  let allConflicts := allConflictsOf userData req
  if allConflicts.length > 0 ∧ !req.force then
    (userData,
     { success := false,
       message := "检测到 " ++ toString allConflicts.length ++ " 个数据冲突",
       data := none, conflicts := allConflicts, requiresResolution := true,
       serverTimestamp := none })
  else
    let updatedFund := applyChanges userData.fundHoldings fundChanges
    let updatedStock := applyChanges userData.stockHoldings stockChanges
    let groups := if req.accountGroups.length > 0 then req.accountGroups
      else userData.accountGroups
    let settings1 := if req.settings.length > 0 then
        Client.spreadMerge userData.settings req.settings
      else userData.settings
    let settings2 := mapSet settings1 "lastSyncTime" (.num now)
    let doc :=
      { fundHoldings := updatedFund, stockHoldings := updatedStock,
        accountGroups := groups, settings := settings2, lastUpdated := now }
    (doc,
     { success := true, message := "同步成功",
       data := some { fundHoldings := updatedFund, stockHoldings := updatedStock,
                      accountGroups := groups, settings := settings2,
                      lastUpdated := now },
       conflicts := allConflicts, requiresResolution := false,
       serverTimestamp := some now })

end Server

/-! ### Sync orchestrator state machine (`PositionSyncService.sync`)

The network is supplied as an explicit environment: `upload i` /
`download i` give the outcome of the i-th attempt of the respective
phase (`resp` is a completed HTTP exchange, `errAuth` a 401-equivalent
failure, `errNet b` a thrown error whose `isRetryableError` test yields
`b`).  Local-store contents read during the download phase are part of
the environment; the orchestrator's own state is its status flag and the
pending-change queue. -/

namespace Client

inductive SyncStatus where
  | IDLE | SYNCING | SUCCESS | ERROR | CONFLICT
  deriving DecidableEq, Repr

structure OrchestratorState where
  syncStatus : SyncStatus
  pendingChanges : List PositionChange

inductive ApiOutcome where
  | resp (success : Bool)
  | errAuth
  | errNet (retryable : Bool)

structure ServerPayload where
  fundHoldings : Option (List JsValue)
  stockHoldings : Option (List JsValue)

inductive DownloadOutcome where
  | resp (success : Bool) (data : Option ServerPayload)
  | errAuth
  | errNet (retryable : Bool)

structure SyncEnv where
  authenticated : Bool
  upload : Nat → ApiOutcome
  download : Nat → DownloadOutcome
  localFundHoldings : List JsValue
  localStockHoldings : List JsValue
  timesOut : Bool
  now : Int

/-- The retry loop of `uploadChanges` (`maxRetries = 3`): a successful
response clears the queue, a failed response or a 401 aborts, a
retryable thrown error retries while `retries < maxRetries - 1`.
Returns the `response.success` flag and the queue after the call. -/
def uploadGo (env : SyncEnv) (pending : List PositionChange) :
    Nat → Nat → Bool × List PositionChange
  | _, 0 => (false, pending)
  | retries, fuel + 1 =>
    match env.upload retries with
    | .resp ok => if ok then (true, []) else (false, pending)
    | .errAuth => (false, pending)
    | .errNet r =>
      if r && decide (retries < 2) then uploadGo env pending (retries + 1) fuel
      else (false, pending)

/-- `uploadChanges`: immediately true on an empty queue. -/
def uploadChanges (env : SyncEnv) (pending : List PositionChange) :
    Bool × List PositionChange :=
  if pending.isEmpty then (true, pending) else uploadGo env pending 0 3

structure DownloadResult where
  success : Bool
  conflicts : List SyncConflict
  changesApplied : Nat

def diffCount (d : PositionDiff) : Nat :=
  d.toCreate.length + d.toUpdate.length + d.toDelete.length

/-- The retry loop of `downloadAndApplyChanges`: fetch the server
snapshot, stop with the conflict list if the detector fires, otherwise
apply the fund and stock diffs (the store writes themselves are outside
the modelled state; their count is returned).  The pending queue is
never modified by this phase. -/
def downloadGo (env : SyncEnv) (pending : List PositionChange) :
    Nat → Nat → DownloadResult
  | _, 0 => { success := false, conflicts := [], changesApplied := 0 }
  | retries, fuel + 1 =>
    match env.download retries with
    | .resp ok odata =>
      match ok, odata with
      | true, some data =>
        let conflicts := detectConflicts pending
          { fundHoldings := data.fundHoldings.getD [],
            stockHoldings := data.stockHoldings.getD [] }
        if conflicts.length > 0 then
          { success := false, conflicts := conflicts, changesApplied := 0 }
        else
          let fundDiff := calculateDiff env.localFundHoldings
            (data.fundHoldings.getD []) "id"
          let stockDiff := calculateDiff env.localStockHoldings
            (data.stockHoldings.getD []) "id"
          { success := true, conflicts := [],
            changesApplied := diffCount fundDiff + diffCount stockDiff }
      | _, _ => { success := false, conflicts := [], changesApplied := 0 }
    | .errAuth => { success := false, conflicts := [], changesApplied := 0 }
    | .errNet r =>
      if r && decide (retries < 2) then downloadGo env pending (retries + 1) fuel
      else { success := false, conflicts := [], changesApplied := 0 }

def downloadAndApplyChanges (env : SyncEnv) (pending : List PositionChange) :
    DownloadResult :=
  downloadGo env pending 0 3

/-- The options of `sync`, with the defaults the source destructures. -/
structure SyncOptions where
  skipUpload : Bool := false
  skipDownload : Bool := false
  force : Bool := false
  timeout : Int := 30000

structure SyncResult where
  success : Bool
  message : String
  changesApplied : Nat
  conflicts : List SyncConflict
  serverTimestamp : Int

/-- The tail of `performSync`: `verifySyncResult` only logs (it never
fails the sync or mutates state), then status becomes SUCCESS. -/
def finishSync (env : SyncEnv) (applied : Nat) (st : OrchestratorState) :
    SyncResult × OrchestratorState :=
  ({ success := true, message := "同步成功", changesApplied := applied,
     conflicts := [], serverTimestamp := env.now },
   { st with syncStatus := SyncStatus.SUCCESS })

/-- The download step of `performSync`. -/
def performSyncDownload (env : SyncEnv) (opts : SyncOptions)
    (st : OrchestratorState) : SyncResult × OrchestratorState :=
  if opts.skipDownload then finishSync env 0 st
  else
    let dl := downloadAndApplyChanges env st.pendingChanges
    if dl.conflicts.length > 0 then
      ({ success := false,
         message := "检测到 " ++ toString dl.conflicts.length ++ " 个数据冲突，请手动解决",
         changesApplied := dl.changesApplied, conflicts := dl.conflicts,
         serverTimestamp := env.now },
       { st with syncStatus := SyncStatus.CONFLICT })
    else if dl.success then finishSync env dl.changesApplied st
    else if !opts.force then
      ({ success := false, message := "下载数据失败", changesApplied := 0,
         conflicts := [], serverTimestamp := 0 },
       { st with syncStatus := SyncStatus.ERROR })
    else finishSync env 0 st

/-- `performSync`: upload then download then verify. -/
def performSync (env : SyncEnv) (opts : SyncOptions) (st : OrchestratorState) :
    SyncResult × OrchestratorState :=
  if opts.skipUpload then performSyncDownload env opts st
  else
    let up := uploadChanges env st.pendingChanges
    let st1 := { st with pendingChanges := up.2 }
    if !up.1 && !opts.force then
      ({ success := false, message := "上传数据失败", changesApplied := 0,
         conflicts := [], serverTimestamp := 0 },
       { st1 with syncStatus := SyncStatus.ERROR })
    else performSyncDownload env opts st1

/-- `sync`: reject without state change when unauthenticated or already
SYNCING; otherwise flip to SYNCING and run `performSync` under the
timeout race (a fired timeout yields the catch branch: ERROR status and
a failure result, the queue untouched). -/
def sync (env : SyncEnv) (opts : SyncOptions) (st : OrchestratorState) :
    SyncResult × OrchestratorState :=
  if !env.authenticated then
    ({ success := false, message := "请先登录", changesApplied := 0,
       conflicts := [], serverTimestamp := 0 }, st)
  else if st.syncStatus = SyncStatus.SYNCING then
    ({ success := false, message := "同步正在进行中", changesApplied := 0,
       conflicts := [], serverTimestamp := 0 }, st)
  else
    let st1 := { st with syncStatus := SyncStatus.SYNCING }
    if env.timesOut then
      ({ success := false, message := "同步失败: 同步超时", changesApplied := 0,
         conflicts := [], serverTimestamp := 0 },
       { st1 with syncStatus := SyncStatus.ERROR })
    else performSync env opts st1

/-- `forceSync`: clear the pending queue (and persist the cleared
metadata), then run a plain `sync()` with default options. -/
def forceSync (env : SyncEnv) (st : OrchestratorState) :
    SyncResult × OrchestratorState :=
  sync env {} { st with pendingChanges := [] }

/-- `hasPendingChanges`. -/
def hasPendingChanges (st : OrchestratorState) : Bool :=
  decide (st.pendingChanges.length > 0)

/-- `getPendingChangesCount`. -/
def getPendingChangesCount (st : OrchestratorState) : Nat :=
  st.pendingChanges.length

end Client

/-! ### Map lemmas -/

section MapLemmas

variable {κ α : Type} [DecidableEq κ]

theorem mapSet_eq_append (m : List (κ × α)) (k : κ) (v : α)
    (h : ∀ p ∈ m, p.1 ≠ k) : mapSet m k v = m ++ [(k, v)] := by
  induction m with
  | nil => rfl
  | cons p rest ih =>
    have hp : p.1 ≠ k := h p (List.mem_cons_self p rest)
    simp only [mapSet, if_neg hp, List.cons_append, List.cons.injEq, true_and]
    exact ih (fun q hq => h q (List.mem_cons_of_mem p hq))

theorem mapOfList_go (l acc : List (κ × α))
    (hdisj : ∀ p ∈ l, ∀ q ∈ acc, q.1 ≠ p.1)
    (hnd : (l.map Prod.fst).Nodup) :
    l.foldl (fun m p => mapSet m p.1 p.2) acc = acc ++ l := by
  induction l generalizing acc with
  | nil => simp
  | cons p rest ih =>
    have hset : mapSet acc p.1 p.2 = acc ++ [p] := by
      have := mapSet_eq_append acc p.1 p.2
        (fun q hq => hdisj p (List.mem_cons_self p rest) q hq)
      simpa using this
    simp only [List.foldl_cons, hset]
    rw [ih (acc ++ [p])]
    · simp
    · intro x hx q hq
      rcases List.mem_append.mp hq with hq | hq
      · exact hdisj x (List.mem_cons_of_mem p hx) q hq
      · simp only [List.mem_singleton] at hq
        subst hq
        simp only [List.map_cons, List.nodup_cons] at hnd
        exact fun hcontra => hnd.1 (hcontra ▸ List.mem_map_of_mem Prod.fst hx)
    · simp only [List.map_cons, List.nodup_cons] at hnd
      exact hnd.2

theorem mapOfList_eq_self (l : List (κ × α)) (hnd : (l.map Prod.fst).Nodup) :
    mapOfList l = l := by
  have := mapOfList_go l [] (by simp) hnd
  simpa [mapOfList] using this

theorem mapLookup_map_key {β : Type} (key : β → κ) (l : List β) (k : κ) :
    mapLookup (l.map (fun x => (key x, x))) k
      = l.find? (fun x => decide (key x = k)) := by
  induction l with
  | nil => rfl
  | cons x rest ih =>
    simp only [List.map_cons, mapLookup, List.find?_cons]
    by_cases h : key x = k
    · simp [h]
    · simp [h, ih]

theorem mapLookup_eq_none_iff (m : List (κ × α)) (k : κ) :
    mapLookup m k = none ↔ ∀ p ∈ m, p.1 ≠ k := by
  induction m with
  | nil => simp [mapLookup]
  | cons p rest ih =>
    simp only [mapLookup]
    by_cases h : p.1 = k
    · simp [h]
    · simp [h, ih]

theorem mapLookup_mapSet_self (m : List (κ × α)) (k : κ) (v : α) :
    mapLookup (mapSet m k v) k = some v := by
  induction m with
  | nil => simp [mapSet, mapLookup]
  | cons p rest ih =>
    simp only [mapSet]
    by_cases h : p.1 = k
    · simp [mapLookup, h]
    · simp [mapLookup, h, ih]

theorem lookup_mapSet_self (m : List (String × α)) (k : String) (v : α) :
    List.lookup k (mapSet m k v) = some v := by
  induction m with
  | nil => simp [mapSet, List.lookup]
  | cons p rest ih =>
    obtain ⟨a, b⟩ := p
    by_cases h : a = k
    · subst h
      simp [mapSet, List.lookup]
    · have hbeq : (k == a) = false := beq_eq_false_iff_ne.mpr (Ne.symm h)
      simp [mapSet, h, List.lookup, hbeq, ih]

theorem lookup_mapSet_ne (m : List (String × α)) (k k' : String) (v : α)
    (h : k' ≠ k) : List.lookup k (mapSet m k' v) = List.lookup k m := by
  induction m with
  | nil =>
    have hbeq : (k == k') = false := beq_eq_false_iff_ne.mpr (Ne.symm h)
    simp [mapSet, List.lookup, hbeq]
  | cons p rest ih =>
    obtain ⟨a, b⟩ := p
    by_cases ha : a = k'
    · subst ha
      have hbeq : (k == a) = false := beq_eq_false_iff_ne.mpr (Ne.symm h)
      simp [mapSet, List.lookup, hbeq]
    · by_cases hk : k = a
      · subst hk
        simp [mapSet, ha, List.lookup]
      · have hbeq : (k == a) = false := beq_eq_false_iff_ne.mpr hk
        simp [mapSet, ha, List.lookup, hbeq, ih]

theorem countP_key_nodup {β : Type} (key : β → κ) (x : β) (k : κ)
    (hk : key x = k) :
    ∀ l : List β, (l.map key).Nodup → x ∈ l →
      l.countP (fun y => decide (key y = k)) = 1 := by
  intro l
  induction l with
  | nil => intro _ hx; cases hx
  | cons y rest ih =>
    intro hnd hx
    simp only [List.map_cons, List.nodup_cons] at hnd
    rcases List.mem_cons.mp hx with hx | hx
    · subst hx
      have hrest : rest.countP (fun z => decide (key z = k)) = 0 := by
        rw [List.countP_eq_zero]
        intro z hz
        simp only [decide_eq_true_eq]
        intro hzk
        exact hnd.1 (by rw [hk, ← hzk]; exact List.mem_map_of_mem key hz)
      rw [List.countP_cons, hrest]
      simp [hk]
    · have hyk : ¬ key y = k := fun hcontra =>
        hnd.1 (by rw [hcontra, ← hk]; exact List.mem_map_of_mem key hx)
      rw [List.countP_cons, ih hnd.2 hx]
      simp [hyk]

theorem mapLookup_append_right (m : List (κ × α)) (k : κ) (v : α)
    (h : mapLookup m k = none) : mapLookup (m ++ [(k, v)]) k = some v := by
  induction m with
  | nil => simp [mapLookup]
  | cons p rest ih =>
    simp only [List.cons_append, mapLookup] at h ⊢
    by_cases hp : p.1 = k
    · rw [if_pos hp] at h; cases h
    · rw [if_neg hp] at h ⊢
      exact ih h

end MapLemmas

/-! ### Change-log lemmas -/

namespace Client

theorem recordChange_ids_subset (op : SyncOperationType) (data : Payload)
    (id : String) (now : Int) :
    ∀ pending, ∀ x ∈ (recordChange pending op data id now).map PositionChange.id,
      x ∈ pending.map PositionChange.id ∨ x = id := by
  intro pending
  induction pending with
  | nil =>
    intro x hx
    simp only [recordChange, newChange, List.map_cons, List.map_nil,
      List.mem_singleton] at hx
    right; exact hx
  | cons c rest ih =>
    intro x hx
    simp only [recordChange] at hx
    by_cases hc : c.id = id
    · rw [if_pos hc] at hx
      by_cases hop : op = SyncOperationType.DELETE
      · rw [if_pos hop] at hx
        simp only [List.map_cons, List.mem_cons] at hx
        rcases hx with hx | hx
        · right; simpa [newChange] using hx
        · left; simp only [List.map_cons, List.mem_cons]; right; exact hx
      · rw [if_neg hop] at hx
        simp only [List.map_cons, List.mem_cons] at hx
        rcases hx with hx | hx
        · right; rw [← hc]; simpa [mergeChange] using hx
        · left; simp only [List.map_cons, List.mem_cons]; right; exact hx
    · rw [if_neg hc] at hx
      simp only [List.map_cons, List.mem_cons] at hx
      rcases hx with hx | hx
      · left; simp only [List.map_cons, List.mem_cons]; left; exact hx
      · rcases ih x hx with h | h
        · left; simp only [List.map_cons, List.mem_cons]; right; exact h
        · right; exact h

theorem recordChange_nodup (op : SyncOperationType) (data : Payload)
    (id : String) (now : Int) :
    ∀ pending, (pending.map PositionChange.id).Nodup →
      ((recordChange pending op data id now).map PositionChange.id).Nodup := by
  intro pending
  induction pending with
  | nil => intro _; simp [recordChange, newChange]
  | cons c rest ih =>
    intro hnd
    simp only [List.map_cons, List.nodup_cons] at hnd
    simp only [recordChange]
    by_cases hc : c.id = id
    · rw [if_pos hc]
      by_cases hop : op = SyncOperationType.DELETE
      · rw [if_pos hop]
        simp only [List.map_cons, List.nodup_cons]
        exact ⟨by simpa [newChange, hc] using hnd.1, hnd.2⟩
      · rw [if_neg hop]
        simp only [List.map_cons, List.nodup_cons]
        exact ⟨by simpa [mergeChange] using hnd.1, hnd.2⟩
    · rw [if_neg hc]
      simp only [List.map_cons, List.nodup_cons]
      refine ⟨fun hmem => ?_, ih hnd.2⟩
      rcases recordChange_ids_subset op data id now rest c.id hmem with h | h
      · exact hnd.1 h
      · exact hc h

theorem recordChange_replace (op : SyncOperationType) (data : Payload)
    (id : String) (now : Int) :
    ∀ pending, (pending.map PositionChange.id).Nodup →
      ∀ e ∈ pending, e.id = id →
        recordChange pending op data id now
          = pending.map (fun c =>
              if c.id = id then
                (if op = SyncOperationType.DELETE then newChange op data id now
                 else mergeChange c data now)
              else c) := by
  intro pending
  induction pending with
  | nil => intro _ e he; cases he
  | cons c rest ih =>
    intro hnd e he heid
    simp only [List.map_cons, List.nodup_cons] at hnd
    simp only [recordChange, List.map_cons]
    by_cases hc : c.id = id
    · rw [if_pos hc, if_pos hc]
      have hrest : rest.map (fun c =>
          if c.id = id then
            (if op = SyncOperationType.DELETE then newChange op data id now
             else mergeChange c data now)
          else c) = rest := by
        have hpt : ∀ a ∈ rest, (if a.id = id then
            (if op = SyncOperationType.DELETE then newChange op data id now
             else mergeChange a data now)
          else a) = a := by
          intro a ha
          have hne : a.id ≠ id := fun hcontra =>
            hnd.1 (List.mem_map.mpr ⟨a, ha, by rw [hcontra, hc]⟩)
          simp [hne]
        rw [List.map_congr_left (g := fun a => a) hpt, List.map_id']
      rw [hrest]
      by_cases hop : op = SyncOperationType.DELETE <;> simp [hop]
    · rw [if_neg hc, if_neg hc]
      have he' : e ∈ rest := by
        rcases List.mem_cons.mp he with h | h
        · exact absurd (h ▸ heid) hc
        · exact h
      rw [ih hnd.2 e he' heid]

end Client

/-! ### Server reconciler lemmas -/

namespace Server

theorem idKey_mkCreated (c : ServerChange) : idKey (mkCreated c) = some c.id := by
  simp only [idKey, objGet, mkCreated]
  rw [lookup_mapSet_ne _ _ _ _ (by decide : ("updatedAt" : String) ≠ "id"),
    lookup_mapSet_ne _ _ _ _ (by decide : ("createdAt" : String) ≠ "id"),
    lookup_mapSet_self]

theorem objGet_mkCreated_id (c : ServerChange) :
    objGet (mkCreated c) "id" = some (.str c.id) := by
  simp only [objGet, mkCreated]
  rw [lookup_mapSet_ne _ _ _ _ (by decide : ("updatedAt" : String) ≠ "id"),
    lookup_mapSet_ne _ _ _ _ (by decide : ("createdAt" : String) ≠ "id"),
    lookup_mapSet_self]

theorem objGet_mkCreated_createdAt (c : ServerChange) :
    objGet (mkCreated c) "createdAt" = some (.num c.timestamp) := by
  simp only [objGet, mkCreated]
  rw [lookup_mapSet_ne _ _ _ _ (by decide : ("updatedAt" : String) ≠ "createdAt"),
    lookup_mapSet_self]

theorem objGet_mkCreated_updatedAt (c : ServerChange) :
    objGet (mkCreated c) "updatedAt" = some (.num c.timestamp) := by
  simp only [objGet, mkCreated]
  rw [lookup_mapSet_self]

end Server

/-! ### Conflict-detector lemmas -/

namespace Client

theorem conflictOf_id (sd : ServerSnapshot) (ch : PositionChange) (k : SyncConflict)
    (h : conflictOf sd ch = some k) : k.id = ch.id := by
  simp only [conflictOf] at h
  split at h
  · split at h
    · split at h
      · cases h; rfl
      · cases h
    · cases h
  · split at h
    · cases h; rfl
    · cases h

theorem detect_filter_nil (sd : ServerSnapshot) (i : String) :
    ∀ l : List PositionChange, (∀ x ∈ l, x.id ≠ i) →
      (l.filterMap (conflictOf sd)).filter (fun k => decide (k.id = i)) = [] := by
  intro l
  induction l with
  | nil => intro _; rfl
  | cons x rest ih =>
    intro h
    simp only [List.filterMap_cons]
    cases hx : conflictOf sd x with
    | none => exact ih (fun y hy => h y (List.mem_cons_of_mem x hy))
    | some k =>
      have hk : k.id ≠ i := by
        rw [conflictOf_id sd x k hx]; exact h x (List.mem_cons_self x rest)
      simp only [List.filter_cons, decide_eq_true_eq, hk, if_false]
      exact ih (fun y hy => h y (List.mem_cons_of_mem x hy))

/-- The conflicts `detectConflicts` emits for the id of a pending change
`c` (unique among the pending ids) are exactly the conflict the loop
body yields for `c`. -/
theorem detect_by_id (sd : ServerSnapshot) (changes : List PositionChange)
    (c : PositionChange) (hnd : (changes.map PositionChange.id).Nodup)
    (hc : c ∈ changes) :
    (detectConflicts changes sd).filter (fun k => decide (k.id = c.id))
      = (conflictOf sd c).toList := by
  unfold detectConflicts
  induction changes with
  | nil => cases hc
  | cons x rest ih =>
    simp only [List.map_cons, List.nodup_cons] at hnd
    simp only [List.filterMap_cons]
    rcases List.mem_cons.mp hc with hceq | hcr
    · subst hceq
      have hrest : ∀ y ∈ rest, y.id ≠ c.id := fun y hy hcontra =>
        hnd.1 (hcontra ▸ List.mem_map_of_mem PositionChange.id hy)
      cases hx : conflictOf sd c with
      | none => exact detect_filter_nil sd c.id rest hrest
      | some k =>
        have hk : k.id = c.id := conflictOf_id sd c k hx
        simp only [List.filter_cons, hk, decide_eq_true_eq, if_pos rfl,
          Option.toList_some, if_true]
        rw [detect_filter_nil sd c.id rest hrest]
    · have hxne : x.id ≠ c.id := fun hcontra =>
        hnd.1 (hcontra ▸ List.mem_map_of_mem PositionChange.id hcr)
      cases hx : conflictOf sd x with
      | none => exact ih hnd.2 hcr
      | some k =>
        have hk : k.id ≠ c.id := by rw [conflictOf_id sd x k hx]; exact hxne
        simp only [List.filter_cons, decide_eq_true_eq, hk, if_false]
        exact ih hnd.2 hcr

end Client

/-! ### Orchestrator lemmas -/

namespace Client

theorem uploadChanges_nil (env : SyncEnv) : uploadChanges env [] = (true, []) := rfl

theorem performSyncDownload_pending (env : SyncEnv) (opts : SyncOptions)
    (st : OrchestratorState) :
    ((performSyncDownload env opts st).2).pendingChanges = st.pendingChanges := by
  unfold performSyncDownload finishSync
  dsimp only
  split_ifs <;> rfl

theorem performSync_pending_empty (env : SyncEnv) (opts : SyncOptions)
    (st : OrchestratorState) (h : st.pendingChanges = []) :
    ((performSync env opts st).2).pendingChanges = [] := by
  unfold performSync
  by_cases hskip : opts.skipUpload = true
  · rw [if_pos hskip, performSyncDownload_pending]
    exact h
  · rw [if_neg hskip]
    have hup : uploadChanges env st.pendingChanges = (true, []) := by
      rw [h]; rfl
    simp only [hup, Bool.not_true, Bool.false_and, Bool.false_eq_true, if_false,
      performSyncDownload_pending]

theorem sync_pending_empty (env : SyncEnv) (opts : SyncOptions)
    (st : OrchestratorState) (h : st.pendingChanges = []) :
    ((sync env opts st).2).pendingChanges = [] := by
  unfold sync
  by_cases ha : (!env.authenticated) = true
  · rw [if_pos ha]; exact h
  · rw [if_neg ha]
    by_cases hs : st.syncStatus = SyncStatus.SYNCING
    · rw [if_pos hs]; exact h
    · rw [if_neg hs]
      by_cases ht : env.timesOut = true
      · rw [if_pos ht]; exact h
      · rw [if_neg ht]
        exact performSync_pending_empty env opts _ h

end Client

/-! ### Claims -/

/-- Claim C2: the pending-change list keeps at most one change per
holding id (no duplicate ids is preserved by every `recordChange`), and
when a pending change for the id exists, a DELETE replaces the entry
outright while any other operation shallow-merges the new payload over
the pending payload, refreshes the timestamp, and recomputes the
checksum over the merged payload, keeping the original operation tag. -/
theorem C2_recordChange_coalesces (pending : List PositionChange)
    (op : SyncOperationType) (data : Payload) (id : String) (now : Int)
    (hnd : (pending.map PositionChange.id).Nodup) :
    ((Client.recordChange pending op data id now).map PositionChange.id).Nodup
    ∧ (∀ e ∈ pending, e.id = id →
        Client.recordChange pending op data id now
          = pending.map (fun c =>
              if c.id = id then
                (if op = SyncOperationType.DELETE then
                  { id := id, operation := op, timestamp := now, data := data,
                    checksum := calculateChecksum (.obj data) }
                 else
                  { id := c.id, operation := c.operation, timestamp := now,
                    data := Client.spreadMerge c.data data,
                    checksum :=
                      calculateChecksum (.obj (Client.spreadMerge c.data data)) })
              else c)) := by
  refine ⟨Client.recordChange_nodup op data id now pending hnd, ?_⟩
  intro e he heid
  rw [Client.recordChange_replace op data id now pending hnd e he heid]
  rfl

def C2ex_payload : Payload := [("share", JsValue.num 1), ("notes", JsValue.str "a")]

def C2ex_pending : List PositionChange :=
  [{ id := "h1", operation := SyncOperationType.CREATE, timestamp := 1,
     data := C2ex_payload, checksum := calculateChecksum (.obj C2ex_payload) }]

def C2ex_upd : Payload := [("share", JsValue.num 2)]

/-- Witness for C2 at a concrete queue: a pending CREATE for `h1`
followed by an UPDATE on `h1`. -/
theorem C2_recordChange_coalesces_witness :
    ((C2ex_pending.map PositionChange.id).Nodup)
    ∧ (((Client.recordChange C2ex_pending SyncOperationType.UPDATE C2ex_upd "h1" 5).map
          PositionChange.id).Nodup
       ∧ (∀ e ∈ C2ex_pending, e.id = "h1" →
            Client.recordChange C2ex_pending SyncOperationType.UPDATE C2ex_upd "h1" 5
              = C2ex_pending.map (fun c =>
                  if c.id = "h1" then
                    (if SyncOperationType.UPDATE = SyncOperationType.DELETE then
                      { id := "h1", operation := SyncOperationType.UPDATE,
                        timestamp := 5, data := C2ex_upd,
                        checksum := calculateChecksum (.obj C2ex_upd) }
                     else
                      { id := c.id, operation := c.operation, timestamp := 5,
                        data := Client.spreadMerge c.data C2ex_upd,
                        checksum :=
                          calculateChecksum
                            (.obj (Client.spreadMerge c.data C2ex_upd)) })
                  else c))) :=
  ⟨by decide,
   C2_recordChange_coalesces C2ex_pending SyncOperationType.UPDATE C2ex_upd "h1" 5
     (by decide)⟩

/-- Claim C3 as stated is false: `calculateChecksum` hashes the
`JSON.stringify` serialization, which preserves key insertion order, so
the two value-equal records below (same keys, same values, different
insertion order) get different checksums. -/
theorem C3_checksum_order_counterexample :
    jsonValueEq (.obj [("id", JsValue.str "1"), ("v", JsValue.num 1)])
        (.obj [("v", JsValue.num 1), ("id", JsValue.str "1")]) = true
    ∧ calculateChecksum (.obj [("id", JsValue.str "1"), ("v", JsValue.num 1)])
        ≠ calculateChecksum (.obj [("v", JsValue.num 1), ("id", JsValue.str "1")]) := by
  constructor
  · decide
  · decide

/-- Claim C3 (amended): the checksum is deterministic over the
structural serialization — records with the same `JSON.stringify` image
(in particular, value-equal records whose keys are in the same
insertion order) get the identical checksum string; it is not
independent of key insertion order. -/
theorem C3_checksum_deterministic (d1 d2 : JsValue)
    (h : stringify d1 = stringify d2) :
    calculateChecksum d1 = calculateChecksum d2 := by
  simp only [calculateChecksum, h]

/-- Witness for the amended C3 at concrete records. -/
theorem C3_checksum_deterministic_witness :
    stringify (.obj [("id", JsValue.str "1"), ("v", JsValue.num 1)])
        = stringify (.obj [("id", JsValue.str "1"), ("v", JsValue.num 1)])
    ∧ calculateChecksum (.obj [("id", JsValue.str "1"), ("v", JsValue.num 1)])
        = calculateChecksum (.obj [("id", JsValue.str "1"), ("v", JsValue.num 1)]) :=
  ⟨rfl, C3_checksum_deterministic _ _ rfl⟩

/-- Claim C1: for a pending change whose target id exists in the server
snapshot, `detectConflicts` emits exactly one conflict for that id when
the operation is not CREATE and the server record's last-modified time
(`updatedAt`, falling back to the creation time) is strictly greater
than the change's timestamp, and none otherwise; in particular CREATE
never conflicts. -/
theorem C1_detectConflicts_iff (changes : List PositionChange)
    (sd : Client.ServerSnapshot) (c : PositionChange) (r : JsValue)
    (hnd : (changes.map PositionChange.id).Nodup) (hc : c ∈ changes)
    (hr : Client.serverItemFor sd c.id = some r) :
    (Client.detectConflicts changes sd).countP (fun k => decide (k.id = c.id))
      = if c.operation ≠ SyncOperationType.CREATE
            ∧ jsGT (Client.serverTimeOf r) c.timestamp = true
        then 1 else 0 := by
  rw [List.countP_eq_length_filter, Client.detect_by_id sd changes c hnd hc]
  unfold Client.conflictOf
  rw [hr]
  by_cases hop : c.operation ≠ SyncOperationType.CREATE
  · by_cases hgt : jsGT (Client.serverTimeOf r) c.timestamp = true
    · simp [hop, hgt]
    · simp [hop, hgt]
  · simp [hop]

def C1ex_change : PositionChange :=
  { id := "X", operation := SyncOperationType.UPDATE, timestamp := 1000,
    data := [("share", JsValue.num 2)], checksum := "0" }

def C1ex_record : JsValue :=
  .obj [("id", JsValue.str "X"), ("share", JsValue.num 3),
        ("updatedAt", JsValue.num 2000)]

def C1ex_sd : Client.ServerSnapshot :=
  { fundHoldings := [C1ex_record], stockHoldings := [] }

/-- Witness for C1: a pending UPDATE on `X` timestamped 1000 against a
server record with `updatedAt = 2000` yields exactly one conflict. -/
theorem C1_detectConflicts_iff_witness :
    (([C1ex_change].map PositionChange.id).Nodup
     ∧ C1ex_change ∈ [C1ex_change]
     ∧ Client.serverItemFor C1ex_sd C1ex_change.id = some C1ex_record)
    ∧ (Client.detectConflicts [C1ex_change] C1ex_sd).countP
        (fun k => decide (k.id = C1ex_change.id)) = 1 :=
  ⟨⟨by decide, List.Mem.head _, rfl⟩,
   (C1_detectConflicts_iff [C1ex_change] C1ex_sd C1ex_change C1ex_record
      (by decide) (List.Mem.head _) rfl).trans (by decide)⟩

/-- Claim C5: a pending UPDATE whose target id is absent from the server
snapshot yields, regardless of timestamps, exactly one conflict for that
id, with a null server payload and the diagnostic message. -/
theorem C5_update_missing_target (changes : List PositionChange)
    (sd : Client.ServerSnapshot) (c : PositionChange)
    (hnd : (changes.map PositionChange.id).Nodup) (hc : c ∈ changes)
    (hop : c.operation = SyncOperationType.UPDATE)
    (habs : Client.serverItemFor sd c.id = none) :
    (Client.detectConflicts changes sd).filter (fun k => decide (k.id = c.id))
      = [{ id := c.id, localData := c.data, serverData := none,
           resolution := "manual", conflictingFields := some ["id"],
           serverTimestamp := none, localTimestamp := none, operation := none,
           message := some "本地尝试更新的项目在服务器上不存在" }] := by
  rw [Client.detect_by_id sd changes c hnd hc]
  unfold Client.conflictOf
  rw [habs, if_pos hop]
  rfl

def C5ex_change : PositionChange :=
  { id := "gone", operation := SyncOperationType.UPDATE, timestamp := 1000,
    data := [("share", JsValue.num 2)], checksum := "0" }

def C5ex_sd : Client.ServerSnapshot :=
  { fundHoldings := [.obj [("id", JsValue.str "other")]], stockHoldings := [] }

/-- Witness for C5: an UPDATE on an id the server snapshot lacks. -/
theorem C5_update_missing_target_witness :
    (([C5ex_change].map PositionChange.id).Nodup
     ∧ C5ex_change ∈ [C5ex_change]
     ∧ C5ex_change.operation = SyncOperationType.UPDATE
     ∧ Client.serverItemFor C5ex_sd C5ex_change.id = none)
    ∧ (Client.detectConflicts [C5ex_change] C5ex_sd).filter
        (fun k => decide (k.id = C5ex_change.id))
      = [{ id := C5ex_change.id, localData := C5ex_change.data, serverData := none,
           resolution := "manual", conflictingFields := some ["id"],
           serverTimestamp := none, localTimestamp := none, operation := none,
           message := some "本地尝试更新的项目在服务器上不存在" }] :=
  ⟨⟨by decide, List.Mem.head _, rfl, rfl⟩,
   C5_update_missing_target [C5ex_change] C5ex_sd C5ex_change (by decide)
     (List.Mem.head _) rfl rfl⟩

theorem filterMap_guard {α : Type} (f : α → Option α) (p : α → Bool)
    (h : ∀ x, f x = if p x then some x else none) :
    ∀ l : List α, l.filterMap f = l.filter p := by
  intro l
  induction l with
  | nil => rfl
  | cons x rest ih =>
    simp only [List.filterMap_cons, List.filter_cons, h x]
    by_cases hx : p x = true
    · simp [hx, ih]
    · simp [hx, ih]

/-- Claim C4: `calculateDiff` sends every server record whose key is
absent locally to `toCreate`, every server record whose local copy has a
differing checksum to `toUpdate` (checksum-equal records to neither),
and the key of every local record absent from the server set to
`toDelete`. -/
theorem C4_calculateDiff_partition (localData serverData : List JsValue)
    (kf : String)
    (hl : (localData.map (Client.keyOf kf)).Nodup)
    (hs : (serverData.map (Client.keyOf kf)).Nodup) :
    Client.calculateDiff localData serverData kf =
      { toCreate := serverData.filter (fun s =>
          localData.all (fun l => decide (Client.keyOf kf l ≠ Client.keyOf kf s))),
        toUpdate := serverData.filter (fun s =>
          match localData.find? (fun l =>
              decide (Client.keyOf kf l = Client.keyOf kf s)) with
          | some l => decide (calculateChecksum l ≠ calculateChecksum s)
          | none => false),
        toDelete := (localData.filter (fun l =>
          serverData.all (fun s =>
            decide (Client.keyOf kf s ≠ Client.keyOf kf l)))).map
          (Client.keyOf kf) } := by
  have hl' : ((localData.map (fun item => (Client.keyOf kf item, item))).map
      Prod.fst).Nodup := by
    simpa [List.map_map, Function.comp] using hl
  have hs' : ((serverData.map (fun item => (Client.keyOf kf item, item))).map
      Prod.fst).Nodup := by
    simpa [List.map_map, Function.comp] using hs
  have hlook : ∀ (l : List JsValue) (k : String),
      mapLookup (l.map (fun item => (Client.keyOf kf item, item))) k
        = l.find? (fun x => decide (Client.keyOf kf x = k)) :=
    fun l k => mapLookup_map_key (Client.keyOf kf) l k
  simp only [Client.calculateDiff, mapOfList_eq_self _ hl', mapOfList_eq_self _ hs',
    Client.PositionDiff.mk.injEq]
  refine ⟨?_, ?_, ?_⟩
  · rw [List.filter_map, List.map_map]
    have hfc : serverData.filter
        ((fun p => (mapLookup
            (localData.map (fun item => (Client.keyOf kf item, item))) p.1).isNone)
          ∘ (fun item => (Client.keyOf kf item, item)))
        = serverData.filter (fun s =>
            localData.all (fun l =>
              decide (Client.keyOf kf l ≠ Client.keyOf kf s))) := by
      apply List.filter_congr
      intro s _
      simp only [Function.comp_apply, hlook]
      rw [Bool.eq_iff_iff]
      simp only [Option.isNone_iff_eq_none, List.find?_eq_none, List.all_eq_true,
        decide_eq_true_eq]
    rw [hfc]
    exact List.map_id' _
  · rw [List.filterMap_map]
    apply filterMap_guard
    intro s
    simp only [Function.comp_apply, hlook]
    cases hfind : localData.find? (fun l =>
        decide (Client.keyOf kf l = Client.keyOf kf s)) with
    | none => simp
    | some l =>
      by_cases hcs : calculateChecksum l ≠ calculateChecksum s
      · simp [hcs]
      · simp [hcs]
  · rw [List.filter_map, List.map_map]
    have hfc : localData.filter
        ((fun p => (mapLookup
            (serverData.map (fun item => (Client.keyOf kf item, item))) p.1).isNone)
          ∘ (fun item => (Client.keyOf kf item, item)))
        = localData.filter (fun l =>
            serverData.all (fun s =>
              decide (Client.keyOf kf s ≠ Client.keyOf kf l))) := by
      apply List.filter_congr
      intro l _
      simp only [Function.comp_apply, hlook]
      rw [Bool.eq_iff_iff]
      simp only [Option.isNone_iff_eq_none, List.find?_eq_none, List.all_eq_true,
        decide_eq_true_eq]
    rw [hfc]
    rfl

def C4ex_loc1 : JsValue := .obj [("id", JsValue.num 1), ("v", JsValue.num 1)]

def C4ex_srv1 : JsValue := .obj [("id", JsValue.num 1), ("v", JsValue.num 2)]

def C4ex_srv2 : JsValue := .obj [("id", JsValue.num 2), ("v", JsValue.num 1)]

/-- Witness for C4 at the specification's example: local `[(id 1, v 1)]`
against server `[(id 1, v 2), (id 2, v 1)]` yields `toCreate` with only
the id-2 record, `toUpdate` with only the server id-1 record, and empty
`toDelete`. -/
theorem C4_calculateDiff_partition_witness :
    (([C4ex_loc1].map (Client.keyOf "id")).Nodup
     ∧ ([C4ex_srv1, C4ex_srv2].map (Client.keyOf "id")).Nodup)
    ∧ Client.calculateDiff [C4ex_loc1] [C4ex_srv1, C4ex_srv2] "id"
        = { toCreate := [C4ex_srv2], toUpdate := [C4ex_srv1], toDelete := [] } :=
  ⟨⟨by decide, by decide⟩,
   (C4_calculateDiff_partition [C4ex_loc1] [C4ex_srv1, C4ex_srv2] "id"
      (by decide) (by decide)).trans (by rfl)⟩

/-- Claim C6: the server reconciler's CREATE is idempotent — a CREATE
whose id already exists leaves the collection unchanged, applying the
same CREATE twice equals applying it once and leaves exactly one record
with that id — and DELETE unconditionally removes the records with its
id. -/
theorem C6_applyChanges_create_idempotent (holdings : List JsValue)
    (c : Server.ServerChange) (hnd : (holdings.map idKey).Nodup) :
    (c.operation = SyncOperationType.CREATE →
      ((∃ h ∈ holdings, idKey h = some c.id) →
          Server.applyChanges holdings [c] = holdings)
      ∧ Server.applyChanges holdings [c, c] = Server.applyChanges holdings [c]
      ∧ (Server.applyChanges holdings [c]).countP
          (fun h => decide (idKey h = some c.id)) = 1)
    ∧ (c.operation = SyncOperationType.DELETE →
        Server.applyChanges holdings [c]
          = holdings.filter (fun h => decide (idKey h ≠ some c.id))) := by
  have hnd' : ((holdings.map (fun h => (idKey h, h))).map Prod.fst).Nodup := by
    simpa [List.map_map, Function.comp] using hnd
  have hpairs := mapOfList_eq_self _ hnd'
  have hlk := mapLookup_map_key idKey holdings (some c.id)
  have hvalues : mapValues (holdings.map (fun h => (idKey h, h))) = holdings := by
    simp only [mapValues, List.map_map]
    exact List.map_id' holdings
  constructor
  · intro hop
    cases hfind : holdings.find? (fun h => decide (idKey h = some c.id)) with
    | some h' =>
      have hsome : mapLookup (holdings.map (fun h => (idKey h, h))) (some c.id)
          = some h' := by rw [hlk, hfind]
      have happly : Server.applyOne (holdings.map (fun h => (idKey h, h))) c
          = holdings.map (fun h => (idKey h, h)) := by
        simp [Server.applyOne, hop, hsome]
      have honce : Server.applyChanges holdings [c] = holdings := by
        simp only [Server.applyChanges, List.foldl_cons, List.foldl_nil, hpairs,
          happly, hvalues]
      refine ⟨fun _ => honce, ?_, ?_⟩
      · simp only [Server.applyChanges, List.foldl_cons, List.foldl_nil, hpairs,
          happly]
      · rw [honce]
        exact countP_key_nodup idKey h' (some c.id) (by simpa using List.find?_some hfind)
          holdings hnd (List.mem_of_find?_eq_some hfind)
    | none =>
      have hnone : mapLookup (holdings.map (fun h => (idKey h, h))) (some c.id)
          = none := by rw [hlk, hfind]
      have habs : ∀ h ∈ holdings, ¬ idKey h = some c.id := by
        have := List.find?_eq_none.mp hfind
        simpa using this
      have hset : mapSet (holdings.map (fun h => (idKey h, h))) (some c.id)
          (Server.mkCreated c)
          = holdings.map (fun h => (idKey h, h)) ++ [(some c.id, Server.mkCreated c)] :=
        mapSet_eq_append _ _ _ ((mapLookup_eq_none_iff _ _).mp hnone)
      have happly : Server.applyOne (holdings.map (fun h => (idKey h, h))) c
          = holdings.map (fun h => (idKey h, h)) ++ [(some c.id, Server.mkCreated c)] := by
        simp [Server.applyOne, hop, hnone, hset]
      have happly2 : Server.applyOne
          (holdings.map (fun h => (idKey h, h)) ++ [(some c.id, Server.mkCreated c)]) c
          = holdings.map (fun h => (idKey h, h)) ++ [(some c.id, Server.mkCreated c)] := by
        have : mapLookup
            (holdings.map (fun h => (idKey h, h)) ++ [(some c.id, Server.mkCreated c)])
            (some c.id) = some (Server.mkCreated c) :=
          mapLookup_append_right _ _ _ hnone
        simp [Server.applyOne, hop, this]
      have honce : Server.applyChanges holdings [c]
          = holdings ++ [Server.mkCreated c] := by
        simp only [Server.applyChanges, List.foldl_cons, List.foldl_nil, hpairs,
          happly, mapValues, List.map_append, List.map_map]
        simp only [List.map_cons, List.map_nil]
        rw [show (List.map (Prod.snd ∘ fun h => ((idKey h, h) : Option String × JsValue))
          holdings) = holdings from List.map_id' holdings]
      refine ⟨fun hex => ?_, ?_, ?_⟩
      · obtain ⟨h, hh, hid⟩ := hex
        exact absurd hid (habs h hh)
      · simp only [Server.applyChanges, List.foldl_cons, List.foldl_nil, hpairs,
          happly, happly2]
      · rw [honce, List.countP_append]
        have h0 : holdings.countP (fun h => decide (idKey h = some c.id)) = 0 :=
          List.countP_eq_zero.mpr (by simpa using habs)
        rw [h0]
        simp [Server.idKey_mkCreated]
  · intro hop
    have happly : Server.applyOne (holdings.map (fun h => (idKey h, h))) c
        = (holdings.map (fun h => (idKey h, h))).filter
            (fun p => decide (p.1 ≠ some c.id)) := by
      simp [Server.applyOne, hop, mapDelete]
    simp only [Server.applyChanges, List.foldl_cons, List.foldl_nil, hpairs, happly,
      mapValues, List.filter_map]
    simp only [List.map_map]
    have : (Prod.snd ∘ fun h => ((idKey h, h) : Option String × JsValue))
        = fun h => h := rfl
    rw [this, List.map_id']
    rfl

def C6ex_holdings : List JsValue :=
  [.obj [("id", JsValue.str "f1"), ("share", JsValue.num 7)]]

def C6ex_create : Server.ServerChange :=
  { id := "f2", operation := SyncOperationType.CREATE, timestamp := 100,
    data := some (.obj [("fundCode", JsValue.str "000001"),
                        ("share", JsValue.num 1000)]) }

/-- Witness for C6: applying the same CREATE for `f2` twice to a
collection holding only `f1` equals applying it once, and leaves exactly
one `f2` record; a DELETE for `f2` filters it out. -/
theorem C6_applyChanges_create_idempotent_witness :
    ((C6ex_holdings.map idKey).Nodup
     ∧ C6ex_create.operation = SyncOperationType.CREATE)
    ∧ (Server.applyChanges C6ex_holdings [C6ex_create, C6ex_create]
        = Server.applyChanges C6ex_holdings [C6ex_create]
       ∧ (Server.applyChanges C6ex_holdings [C6ex_create]).countP
           (fun h => decide (idKey h = some C6ex_create.id)) = 1) :=
  ⟨⟨by decide, rfl⟩,
   ⟨((C6_applyChanges_create_idempotent C6ex_holdings C6ex_create (by decide)).1
       rfl).2.1,
    ((C6_applyChanges_create_idempotent C6ex_holdings C6ex_create (by decide)).1
       rfl).2.2⟩⟩

/-- Claim C10: a server-side UPDATE whose target id is absent from the
collection creates a new record with that id, with `createdAt` and
`updatedAt` both set to the change's timestamp (UPDATE is an upsert). -/
theorem C10_applyChanges_update_upsert (holdings : List JsValue)
    (c : Server.ServerChange) (hnd : (holdings.map idKey).Nodup)
    (hop : c.operation = SyncOperationType.UPDATE)
    (habs : ∀ h ∈ holdings, idKey h ≠ some c.id) :
    Server.applyChanges holdings [c] = holdings ++ [Server.mkCreated c]
    ∧ objGet (Server.mkCreated c) "id" = some (.str c.id)
    ∧ objGet (Server.mkCreated c) "createdAt" = some (.num c.timestamp)
    ∧ objGet (Server.mkCreated c) "updatedAt" = some (.num c.timestamp) := by
  have hnd' : ((holdings.map (fun h => (idKey h, h))).map Prod.fst).Nodup := by
    simpa [List.map_map, Function.comp] using hnd
  have hpairs := mapOfList_eq_self _ hnd'
  have hlk := mapLookup_map_key idKey holdings (some c.id)
  have hfind : holdings.find? (fun h => decide (idKey h = some c.id)) = none :=
    List.find?_eq_none.mpr (by simpa using habs)
  have hnone : mapLookup (holdings.map (fun h => (idKey h, h))) (some c.id)
      = none := by rw [hlk, hfind]
  have hset : mapSet (holdings.map (fun h => (idKey h, h))) (some c.id)
      (Server.mkCreated c)
      = holdings.map (fun h => (idKey h, h)) ++ [(some c.id, Server.mkCreated c)] :=
    mapSet_eq_append _ _ _ ((mapLookup_eq_none_iff _ _).mp hnone)
  have happly : Server.applyOne (holdings.map (fun h => (idKey h, h))) c
      = holdings.map (fun h => (idKey h, h)) ++ [(some c.id, Server.mkCreated c)] := by
    simp [Server.applyOne, hop, hnone, hset]
  refine ⟨?_, Server.objGet_mkCreated_id c, Server.objGet_mkCreated_createdAt c,
    Server.objGet_mkCreated_updatedAt c⟩
  simp only [Server.applyChanges, List.foldl_cons, List.foldl_nil, hpairs, happly,
    mapValues, List.map_append, List.map_map]
  simp only [List.map_cons, List.map_nil]
  rw [show (List.map (Prod.snd ∘ fun h => ((idKey h, h) : Option String × JsValue))
    holdings) = holdings from List.map_id' holdings]

def C10ex_update : Server.ServerChange :=
  { id := "f9", operation := SyncOperationType.UPDATE, timestamp := 4200,
    data := some (.obj [("fundCode", JsValue.str "000009"),
                        ("share", JsValue.num 50)]) }

/-- Witness for C10: an UPDATE for an id absent from a one-record
collection appends an upserted record stamped with the change's
timestamp. -/
theorem C10_applyChanges_update_upsert_witness :
    ((C6ex_holdings.map idKey).Nodup
     ∧ C10ex_update.operation = SyncOperationType.UPDATE
     ∧ (∀ h ∈ C6ex_holdings, idKey h ≠ some C10ex_update.id))
    ∧ (Server.applyChanges C6ex_holdings [C10ex_update]
        = C6ex_holdings ++ [Server.mkCreated C10ex_update]
       ∧ objGet (Server.mkCreated C10ex_update) "id"
          = some (.str C10ex_update.id)
       ∧ objGet (Server.mkCreated C10ex_update) "createdAt"
          = some (.num C10ex_update.timestamp)
       ∧ objGet (Server.mkCreated C10ex_update) "updatedAt"
          = some (.num C10ex_update.timestamp)) :=
  ⟨⟨by decide, rfl, by decide⟩,
   C10_applyChanges_update_upsert C6ex_holdings C10ex_update (by decide) rfl
     (by decide)⟩

/-- Claim C7: when the force flag is unset and the reconciler detects at
least one conflict, `syncUserData` responds `success:false` with the full
conflict list and `requiresResolution:true`, and the user's stored
document is returned untouched (nothing is applied or persisted). -/
theorem C7_conflicts_short_circuit (now : Int) (doc : Server.UserDoc)
    (req : Server.SyncRequest) (hf : req.force = false)
    (hc : 0 < (Server.allConflictsOf doc req).length) :
    Server.syncUserData now (some doc) req
      = (doc,
         { success := false,
           message := "检测到 " ++ toString (Server.allConflictsOf doc req).length
             ++ " 个数据冲突",
           data := none, conflicts := Server.allConflictsOf doc req,
           requiresResolution := true, serverTimestamp := none }) := by
  unfold Server.syncUserData
  rw [hf]
  simp only [Option.getD_some, Bool.not_false, gt_iff_lt]
  rw [if_pos ⟨hc, trivial⟩]

def C7ex_doc : Server.UserDoc :=
  { fundHoldings := [.obj [("id", JsValue.str "fund_1"),
                           ("updatedAt", JsValue.num 2000)]],
    stockHoldings := [], accountGroups := [], settings := [], lastUpdated := 0 }

def C7ex_req : Server.SyncRequest :=
  { changes := [{ id := "fund_1", operation := SyncOperationType.UPDATE,
                  timestamp := 1000,
                  data := some (.obj [("fundCode", JsValue.str "000001"),
                                      ("share", JsValue.num 5)]) }],
    fundHoldings := [], stockHoldings := [], accountGroups := [], settings := [],
    deviceId := "d", timestamp := 1000, force := false }

/-- Witness for C7: an unforced request carrying an UPDATE that loses to
a newer server record leaves the document untouched and reports the
conflict. -/
theorem C7_conflicts_short_circuit_witness :
    (C7ex_req.force = false ∧ 0 < (Server.allConflictsOf C7ex_doc C7ex_req).length)
    ∧ Server.syncUserData 9999 (some C7ex_doc) C7ex_req
        = (C7ex_doc,
           { success := false,
             message := "检测到 "
               ++ toString (Server.allConflictsOf C7ex_doc C7ex_req).length
               ++ " 个数据冲突",
             data := none, conflicts := Server.allConflictsOf C7ex_doc C7ex_req,
             requiresResolution := true, serverTimestamp := none }) :=
  ⟨⟨rfl, by decide⟩, C7_conflicts_short_circuit 9999 C7ex_doc C7ex_req rfl (by decide)⟩

/-- Claim C8: `forceSync` first discards every pending change (the queue
it hands to `sync` is empty, so `hasPendingChanges` is false right after
the discard), then performs a normal `sync()`; the queue is still empty
when `forceSync` completes, whatever it held before. -/
theorem C8_forceSync_clears_queue (env : Client.SyncEnv)
    (st : Client.OrchestratorState) :
    Client.hasPendingChanges { st with pendingChanges := [] } = false
    ∧ Client.forceSync env st
        = Client.sync env {} { st with pendingChanges := [] }
    ∧ ((Client.forceSync env st).2).pendingChanges = []
    ∧ Client.hasPendingChanges (Client.forceSync env st).2 = false := by
  have hpend : ((Client.forceSync env st).2).pendingChanges = [] :=
    Client.sync_pending_empty env {} { st with pendingChanges := [] } rfl
  refine ⟨rfl, rfl, hpend, ?_⟩
  simp [Client.hasPendingChanges, hpend]

/-- Claim C9: `sync` invoked while unauthenticated or while the status
is SYNCING returns immediately with `success:false` and leaves the state
(pending queue and status) unchanged. -/
theorem C9_sync_guard_no_state_change (env : Client.SyncEnv)
    (opts : Client.SyncOptions) (st : Client.OrchestratorState)
    (h : env.authenticated = false ∨ st.syncStatus = Client.SyncStatus.SYNCING) :
    ((Client.sync env opts st).1).success = false
    ∧ (Client.sync env opts st).2 = st := by
  unfold Client.sync
  rcases h with h | h
  · rw [h]
    simp
  · by_cases ha : env.authenticated = true
    · simp [ha, h]
    · have ha' : env.authenticated = false := by simpa using ha
      simp [ha']

def C9ex_change : PositionChange :=
  { id := "h9", operation := SyncOperationType.UPDATE, timestamp := 7,
    data := [("share", JsValue.num 3)], checksum := "0" }

def C9ex_env : Client.SyncEnv :=
  { authenticated := true, upload := fun _ => .resp true,
    download := fun _ => .resp true none, localFundHoldings := [],
    localStockHoldings := [], timesOut := false, now := 0 }

def C9ex_st : Client.OrchestratorState :=
  { syncStatus := Client.SyncStatus.SYNCING, pendingChanges := [C9ex_change] }

/-- Witness for C9: a `sync` call while the status is SYNCING (and a
non-empty queue) fails without touching the state. -/
theorem C9_sync_guard_no_state_change_witness :
    (C9ex_env.authenticated = false
     ∨ C9ex_st.syncStatus = Client.SyncStatus.SYNCING)
    ∧ ((Client.sync C9ex_env {} C9ex_st).1).success = false
    ∧ (Client.sync C9ex_env {} C9ex_st).2 = C9ex_st :=
  ⟨Or.inr rfl,
   (C9_sync_guard_no_state_change C9ex_env {} C9ex_st (Or.inr rfl)).1,
   (C9_sync_guard_no_state_change C9ex_env {} C9ex_st (Or.inr rfl)).2⟩

end FundSync
